import Mathlib

/-!
NodeRefList: a packed, append-only run of NodeRef objects behind an item header

Shallow embedding of `contrib/libosmium/osmium/osm/node_ref_list.hpp`, followed
by the default scale of `output.hpp`.

A `NodeRefList` lives inside a byte buffer: an item header (type tag and total
byte size) followed by `NodeRef` objects of `sizeof(NodeRef)` bytes each.  The
class only carries pointer arithmetic over that buffer, so the embedding keeps

* the stored `byte_size` as a natural number,
* pointers as byte offsets from `data()`, the start of the item,
* the buffer as a typed read `data : Nat → NodeRef` giving the `NodeRef` object
  found at a byte offset,
* `size_t` arithmetic as arithmetic modulo `2 ^ 64`,
* `assert` as a result in `Except AssertFailure`, the error naming the
  assertion that stopped the program.
-/

namespace osmium

/-! ## Collaborators of the class -/

/-- Modelled from the spec: `osmium::Location` (`osmium/osm/location.hpp` is not
among the sources).  The spec describes it as an optional fixed-point geographic
coordinate whose equality is exact. -/
structure Location where
  coordinate : Option (Int × Int)
  deriving DecidableEq, Repr

/-- The `explicit operator bool` of a location: the coordinate is present. -/
def Location.valid (l : Location) : Bool :=
  l.coordinate.isSome

/-- Modelled from the spec: `osmium::NodeRef` (`osmium/osm/node_ref.hpp` is not
among the sources): a reference id and an optional location.  The accessors
`ref()` and `location()` are the two fields. -/
structure NodeRef where
  ref : Int
  location : Location
  deriving DecidableEq, Repr

/-- Modelled from the spec: `sizeof(NodeRefList)`, the fixed header size.  The
class adds no data member to `osmium::memory::Item`, whose header is 8 bytes. -/
def sizeof_NodeRefList : Nat := 8

/-- Modelled from the spec: `sizeof(NodeRef)`, the fixed element size. -/
def sizeof_NodeRef : Nat := 16

/-- Number of values of `std::size_t`; unsigned arithmetic is taken modulo it. -/
def size_t_range : Nat := 2 ^ 64

/-- The assertions of the class, named after the condition they check. -/
inductive AssertFailure where
  /-- In `size()`: `assert(size_node_refs % sizeof(NodeRef) == 0)`. -/
  | size_multiple
  /-- In `operator[]`: `assert(n < size())`. -/
  | index_in_range
  /-- In `front()` and `back()`: `assert(!empty())`. -/
  | not_empty
  /-- In `ends_have_same_location()`:
  `assert(front().location() && back().location())`. -/
  | locations_valid
  deriving DecidableEq, Repr

deriving instance DecidableEq for Except

/-- A `NodeRefList` as it sits in its buffer: the item header written by
`osmium::memory::Item` (type tag and byte size) and the typed content of the
buffer, addressed by byte offset from `data()`. -/
structure NodeRefList where
  /-- The header's type tag, `Item::type()`. -/
  item_type : Nat
  /-- The header's size field, `Item::byte_size()`. -/
  byte_size : Nat
  /-- The `NodeRef` object read through `data() + offset`. -/
  data : Nat → NodeRef

namespace NodeRefList

/-! ## The class -/

/-- The constructor `NodeRefList(itemtype)`: it runs
`Item(sizeof(NodeRefList), itemtype)` on the buffer it is placed in.
Modelled from the spec: the constructor of `osmium::memory::Item`
(`osmium/memory/item.hpp` is not among the sources), which stores its first
argument as the byte size and its second as the type tag. -/
def init (itemtype : Nat) (buffer : Nat → NodeRef) : NodeRefList :=
  { item_type := itemtype, byte_size := sizeof_NodeRefList, data := buffer }

/-- The method `empty()`: `sizeof(NodeRefList) == byte_size()`. -/
def empty (r : NodeRefList) : Bool :=
  decide (sizeof_NodeRefList = r.byte_size)

/-- The method `size()`: the subtraction is unsigned, the assertion checks
divisibility, the quotient is returned. -/
def size (r : NodeRefList) : Except AssertFailure Nat :=
  let size_node_refs := (r.byte_size + size_t_range - sizeof_NodeRefList) % size_t_range
  if size_node_refs % sizeof_NodeRef = 0 then
    .ok (size_node_refs / sizeof_NodeRef)
  else
    .error .size_multiple

/-- The method `cbegin()` (and `begin()`): `data() + sizeof(NodeRefList)`. -/
def cbegin (_r : NodeRefList) : Nat :=
  sizeof_NodeRefList

/-- The method `cend()` (and `end()`): `data() + byte_size()`. -/
def cend (r : NodeRefList) : Nat :=
  r.byte_size

/-- The method `operator[](n)`: `assert(n < size())`, then the `n`-th `NodeRef`
counted from `cbegin()`. -/
def operator_index (r : NodeRefList) (n : Nat) : Except AssertFailure NodeRef := do
  let s ← r.size
  if n < s then
    pure (r.data (r.cbegin + n * sizeof_NodeRef))
  else
    throw .index_in_range

/-- The method `front()`: `assert(!empty())`, then `operator[](0)`. -/
def front (r : NodeRefList) : Except AssertFailure NodeRef :=
  if r.empty then
    throw .not_empty
  else
    r.operator_index 0

/-- The method `back()`: `assert(!empty())`, then `operator[](size()-1)`, the
subtraction being unsigned. -/
def back (r : NodeRefList) : Except AssertFailure NodeRef :=
  if r.empty then
    throw .not_empty
  else do
    let s ← r.size
    r.operator_index ((s + size_t_range - 1) % size_t_range)

/-- The method `ends_have_same_id()`: `front().ref() == back().ref()`. -/
def ends_have_same_id (r : NodeRefList) : Except AssertFailure Bool := do
  let f ← r.front
  let b ← r.back
  pure (decide (f.ref = b.ref))

/-- The method `is_closed()`: it returns `ends_have_same_id()`. -/
def is_closed (r : NodeRefList) : Except AssertFailure Bool :=
  r.ends_have_same_id

/-- The method `ends_have_same_location()`: the assertion evaluates
`front().location() && back().location()` with the short circuit of `&&`, then
the two locations are compared. -/
def ends_have_same_location (r : NodeRefList) : Except AssertFailure Bool := do
  let f ← r.front
  let both ← if f.location.valid then (do let b ← r.back; pure b.location.valid) else pure false
  if both then
    let f2 ← r.front
    let b2 ← r.back
    pure (decide (f2.location = b2.location))
  else
    throw .locations_valid

/-! ## Iteration

`const_iterator` is `const NodeRef*`: an iterator is a byte offset, `*it` reads
the buffer there and `++it` moves by `sizeof(NodeRef)`.  The loops carry fuel
because a pointer that steps over its end pointer never compares equal to it. -/

/-- The loop `for (; it != last; ++it) out.push_back(*it);` over `const NodeRef*`. -/
def forward_loop (r : NodeRefList) (last : Nat) : Nat → Nat → Option (List NodeRef)
  | 0, _ => none
  | fuel + 1, it =>
    if it = last then some []
    else (forward_loop r last fuel (it + sizeof_NodeRef)).map (fun rest => r.data it :: rest)

/-- Forward iteration `for (auto it = cbegin(); it != cend(); ++it)`. -/
def forward_iteration (r : NodeRefList) (fuel : Nat) : Option (List NodeRef) :=
  forward_loop r r.cend fuel r.cbegin

/-- The method `crbegin()`: `const_reverse_iterator(cend())`; a reverse iterator
is held as the pointer it wraps. -/
def crbegin (r : NodeRefList) : Nat :=
  r.cend

/-- The method `crend()`: `const_reverse_iterator(cbegin())`. -/
def crend (r : NodeRefList) : Nat :=
  r.cbegin

/-- The loop `for (; rit != rlast; ++rit) out.push_back(*rit);` over
`std::reverse_iterator<const NodeRef*>`: `*rit` reads the element before the
wrapped pointer and `++rit` moves the wrapped pointer one element back.  Offsets
are natural numbers, so a pointer moved before `data()` stays at offset 0; a
well-formed record never moves one there. -/
def reverse_loop (r : NodeRefList) (rlast : Nat) : Nat → Nat → Option (List NodeRef)
  | 0, _ => none
  | fuel + 1, rit =>
    if rit = rlast then some []
    else (reverse_loop r rlast fuel (rit - sizeof_NodeRef)).map
      (fun rest => r.data (rit - sizeof_NodeRef) :: rest)

/-- Reverse iteration `for (auto rit = crbegin(); rit != crend(); ++rit)`. -/
def reverse_iteration (r : NodeRefList) (fuel : Nat) : Option (List NodeRef) :=
  reverse_loop r r.crend fuel r.crbegin

/-! ## The builder -/

/-- Modelled from the spec: the builder's `append(element)` (the builder is not
among the sources): it writes one element at offset `byte_size` and grows
`byte_size` by the element size. -/
def append (r : NodeRefList) (e : NodeRef) : NodeRefList :=
  { r with
    byte_size := r.byte_size + sizeof_NodeRef
    data := Function.update r.data r.byte_size e }

/-- A record built by appending the elements of `es`, in order, to a freshly
constructed one. -/
def build (itemtype : Nat) (buffer : Nat → NodeRef) (es : List NodeRef) : NodeRefList :=
  es.foldl append (init itemtype buffer)

/-! ## Well-formed records -/

/-- The record invariant with its element count: the stored byte size is the
header plus `N` elements, and it is a value the size field can hold. -/
def well_formed (r : NodeRefList) (N : Nat) : Prop :=
  r.byte_size = sizeof_NodeRefList + N * sizeof_NodeRef ∧ r.byte_size < size_t_range

/-- The record invariant is decidable: an equation and a bound on numbers. -/
instance (r : NodeRefList) (N : Nat) : Decidable (r.well_formed N) :=
  inferInstanceAs (Decidable (_ ∧ _))

/-- The element stored at position `i` of the record. -/
def stored (r : NodeRefList) (i : Nat) : NodeRef :=
  r.data (sizeof_NodeRefList + i * sizeof_NodeRef)

/-- The first `N` stored elements, in stored order. -/
def elements (r : NodeRefList) (N : Nat) : List NodeRef :=
  (List.range N).map r.stored

/-- The record invariant in the words of the data model: the stored byte size
is at least the header size, and what follows the header is a whole number of
elements. -/
def record_invariant (r : NodeRefList) : Prop :=
  sizeof_NodeRefList ≤ r.byte_size ∧
    (r.byte_size - sizeof_NodeRefList) % sizeof_NodeRef = 0

/-- The record invariant is decidable: a comparison and an equation on numbers. -/
instance (r : NodeRefList) : Decidable r.record_invariant :=
  inferInstanceAs (Decidable (_ ∧ _))

/-- The value of `byte_size() - sizeof(NodeRefList)` as `size()` computes it,
in unsigned arithmetic. -/
def size_node_refs (r : NodeRefList) : Nat :=
  (r.byte_size + size_t_range - sizeof_NodeRefList) % size_t_range

/-- Two views give the same outcome, failures included, in every operation of
the class: `size()`, `empty()`, `operator[]`, `front()`, `back()`,
`is_closed()`, `ends_have_same_id()`, `ends_have_same_location()`, and forward
and reverse iteration under every amount of fuel. -/
def same_outcomes (a b : NodeRefList) : Prop :=
  a.size = b.size ∧ a.empty = b.empty ∧
    (∀ n, a.operator_index n = b.operator_index n) ∧
    a.front = b.front ∧ a.back = b.back ∧
    a.is_closed = b.is_closed ∧ a.ends_have_same_id = b.ends_have_same_id ∧
    a.ends_have_same_location = b.ends_have_same_location ∧
    (∀ fuel, a.forward_iteration fuel = b.forward_iteration fuel) ∧
    (∀ fuel, a.reverse_iteration fuel = b.reverse_iteration fuel)

/-- The same record under another type tag: only the header's tag changes. -/
def retagged (r : NodeRefList) (itemtype : Nat) : NodeRefList :=
  { r with item_type := itemtype }

end NodeRefList

/-- A buffer holding the same element everywhere. -/
def blank_buffer : Nat → NodeRef :=
  fun _ => { ref := 0, location := { coordinate := none } }

/-- An element with reference id `i` and no location. -/
def node_ref_of_id (i : Int) : NodeRef :=
  { ref := i, location := { coordinate := none } }

/-- The record built from a list of reference ids over a blank buffer. -/
def of_ids (ids : List Int) : NodeRefList :=
  NodeRefList.build 0 blank_buffer (ids.map node_ref_of_id)

/-- A record of three elements with different reference ids whose first and
last elements carry the same location. -/
def located_ends : NodeRefList :=
  NodeRefList.build 0 blank_buffer
    [⟨1, ⟨some (100, 200)⟩⟩, ⟨2, ⟨some (5, 5)⟩⟩, ⟨3, ⟨some (100, 200)⟩⟩]

/-- A record with the reference ids 3, 4, 3 whose elements carry different
locations, one of them none. -/
def located_ids : NodeRefList :=
  NodeRefList.build 1 blank_buffer
    [⟨3, ⟨some (1, 2)⟩⟩, ⟨4, ⟨none⟩⟩, ⟨3, ⟨some (9, 9)⟩⟩]

/-- A record whose stored byte size breaks the invariant: one byte follows the
header. -/
def one_byte_past_header : NodeRefList :=
  { item_type := 0, byte_size := 9, data := blank_buffer }

end osmium

/-! ## The output options of osm2pgsql (`output.hpp`) -/

/-- The constant `DEFAULT_SCALE`. -/
def DEFAULT_SCALE : Int := 100

/-- The struct `output_options`, field by field; an `int` is an integer and a
pointer is an address.  The field `prefix` is written `prefix_`. -/
structure output_options where
  conninfo : Nat
  prefix_ : Nat
  scale : Int
  projection : Int
  append : Int
  slim : Int
  cache : Int
  mid : Nat
  out : Nat
  tblsmain_index : Nat
  tblsslim_index : Nat
  tblsmain_data : Nat
  tblsslim_data : Nat
  style : Nat
  expire_tiles_zoom : Int
  expire_tiles_zoom_min : Int
  expire_tiles_filename : Nat
  enable_hstore : Int
  enable_hstore_index : Int
  enable_multi : Int
  hstore_columns : Nat
  n_hstore_columns : Int
  keep_coastlines : Int
  parallel_indexing : Int
  alloc_chunkwise : Int
  num_procs : Int
  droptemp : Int
  unlogged : Int
  hstore_match_only : Int
  flat_node_cache_enabled : Int
  excludepoly : Int
  flat_node_file : Nat
  tag_transform_script : Nat

/-- The constructor `output_options() : scale(DEFAULT_SCALE) {}`: it sets
`scale` and leaves every other field as the storage `raw` it runs on had it. -/
def output_options.construct (raw : output_options) : output_options :=
  { raw with scale := DEFAULT_SCALE }

namespace osmium

namespace NodeRefList

/-! ## Reading a well-formed record -/

theorem size_of_well_formed (r : NodeRefList) (N : Nat) (h : r.well_formed N) :
    r.size = .ok N := by
  obtain ⟨hb, hlt⟩ := h
  simp only [sizeof_NodeRefList, sizeof_NodeRef, size_t_range] at hb hlt
  have h1 : (r.byte_size + 2 ^ 64 - 8) % 2 ^ 64 = N * 16 := by omega
  have h2 : N * 16 % 16 = 0 := by omega
  have h3 : N * 16 / 16 = N := by omega
  simp only [size, sizeof_NodeRefList, sizeof_NodeRef, size_t_range, h1, h2, h3, if_true]

theorem empty_of_well_formed (r : NodeRefList) (N : Nat) (h : r.well_formed N) :
    r.empty = decide (N = 0) := by
  obtain ⟨hb, -⟩ := h
  simp only [sizeof_NodeRefList, sizeof_NodeRef] at hb
  simp only [empty, sizeof_NodeRefList, decide_eq_decide]
  omega


theorem bind_ok {ε α β : Type} (a : α) (f : α → Except ε β) :
    (Except.ok a >>= f) = f a := rfl

theorem bind_error {ε α β : Type} (e : ε) (f : α → Except ε β) :
    ((Except.error e : Except ε α) >>= f) = Except.error e := rfl

theorem pure_ok {ε α : Type} (a : α) : (pure a : Except ε α) = Except.ok a := rfl

theorem throw_error {ε α : Type} (e : ε) : (throw e : Except ε α) = Except.error e := rfl

theorem pred_size_t (N : Nat) (h : N + 1 < size_t_range) :
    (N + 1 + size_t_range - 1) % size_t_range = N := by
  unfold size_t_range at h ⊢
  omega

theorem count_lt_size_t (r : NodeRefList) (N : Nat) (h : r.well_formed N) :
    N < size_t_range := by
  obtain ⟨hb, hlt⟩ := h
  unfold sizeof_NodeRefList sizeof_NodeRef at hb
  unfold size_t_range at hlt ⊢
  omega

theorem operator_index_of_lt (r : NodeRefList) (N n : Nat) (h : r.well_formed N)
    (hn : n < N) : r.operator_index n = .ok (r.stored n) := by
  unfold operator_index
  rw [size_of_well_formed r N h, bind_ok, if_pos hn]
  rfl

theorem operator_index_of_ge (r : NodeRefList) (N n : Nat) (h : r.well_formed N)
    (hn : N ≤ n) : r.operator_index n = .error .index_in_range := by
  unfold operator_index
  rw [size_of_well_formed r N h, bind_ok, if_neg (by omega)]
  rfl

theorem front_of_well_formed (r : NodeRefList) (N : Nat) (h : r.well_formed (N + 1)) :
    r.front = .ok (r.stored 0) := by
  have he : r.empty = false := by
    rw [empty_of_well_formed r (N + 1) h]; exact decide_eq_false (Nat.succ_ne_zero N)
  unfold front
  rw [he]
  exact operator_index_of_lt r (N + 1) 0 h (Nat.succ_pos N)

theorem back_of_well_formed (r : NodeRefList) (N : Nat) (h : r.well_formed (N + 1)) :
    r.back = .ok (r.stored N) := by
  have he : r.empty = false := by
    rw [empty_of_well_formed r (N + 1) h]; exact decide_eq_false (Nat.succ_ne_zero N)
  unfold back
  rw [he, if_neg Bool.false_ne_true, size_of_well_formed r (N + 1) h, bind_ok,
    pred_size_t N (count_lt_size_t r (N + 1) h)]
  exact operator_index_of_lt r (N + 1) N h (Nat.lt_succ_self N)

theorem front_of_empty (r : NodeRefList) (h : r.empty = true) :
    r.front = .error .not_empty := by
  unfold front
  rw [h]
  rfl

theorem back_of_empty (r : NodeRefList) (h : r.empty = true) :
    r.back = .error .not_empty := by
  unfold back
  rw [h]
  rfl

theorem ends_have_same_id_of_well_formed (r : NodeRefList) (N : Nat)
    (h : r.well_formed (N + 1)) :
    r.ends_have_same_id = .ok (decide ((r.stored 0).ref = (r.stored N).ref)) := by
  unfold ends_have_same_id
  rw [front_of_well_formed r N h, back_of_well_formed r N h]
  rfl

theorem ends_have_same_id_of_empty (r : NodeRefList) (h : r.empty = true) :
    r.ends_have_same_id = .error .not_empty := by
  unfold ends_have_same_id
  rw [front_of_empty r h]
  rfl

theorem ends_have_same_location_of_well_formed (r : NodeRefList) (N : Nat)
    (h : r.well_formed (N + 1)) (hf : (r.stored 0).location.valid = true)
    (hb : (r.stored N).location.valid = true) :
    r.ends_have_same_location
      = .ok (decide ((r.stored 0).location = (r.stored N).location)) := by
  unfold ends_have_same_location
  rw [front_of_well_formed r N h, back_of_well_formed r N h]
  simp only [bind_ok, pure_ok, hf, hb, if_true]

theorem ends_have_same_location_of_invalid (r : NodeRefList) (N : Nat)
    (h : r.well_formed (N + 1))
    (hv : (r.stored 0).location.valid = false ∨ (r.stored N).location.valid = false) :
    r.ends_have_same_location = .error .locations_valid := by
  unfold ends_have_same_location
  rw [front_of_well_formed r N h, back_of_well_formed r N h]
  cases hfv : (r.stored 0).location.valid with
  | false => simp only [bind_ok, pure_ok, throw_error, hfv, Bool.false_eq_true, if_false]
  | true =>
    cases hbv : (r.stored N).location.valid with
    | false =>
      simp only [bind_ok, pure_ok, throw_error, hfv, hbv, Bool.false_eq_true, if_true, if_false]
    | true => rw [hfv, hbv] at hv; cases hv <;> contradiction

theorem ends_have_same_location_of_empty (r : NodeRefList) (h : r.empty = true) :
    r.ends_have_same_location = .error .not_empty := by
  unfold ends_have_same_location
  rw [front_of_empty r h]
  rfl

/-! ## Iterating a well-formed record -/

theorem forward_loop_run (r : NodeRefList) (k : Nat) :
    ∀ (fuel it : Nat), k < fuel →
      r.forward_loop (it + k * sizeof_NodeRef) fuel it
        = some ((List.range k).map (fun j => r.data (it + j * sizeof_NodeRef))) := by
  induction k with
  | zero =>
    intro fuel it hf
    obtain ⟨f, rfl⟩ : ∃ f, fuel = f + 1 := ⟨fuel - 1, by omega⟩
    simp [forward_loop]
  | succ k ih =>
    intro fuel it hf
    obtain ⟨f, rfl⟩ : ∃ f, fuel = f + 1 := ⟨fuel - 1, by omega⟩
    have hne : ¬ it = it + (k + 1) * sizeof_NodeRef := by
      unfold sizeof_NodeRef; omega
    have hlast : it + (k + 1) * sizeof_NodeRef = (it + sizeof_NodeRef) + k * sizeof_NodeRef := by
      unfold sizeof_NodeRef; omega
    rw [forward_loop, if_neg hne, hlast, ih f (it + sizeof_NodeRef) (by omega)]
    rw [List.range_succ_eq_map]
    simp only [Option.map_some', List.map_cons, List.map_map, Nat.zero_mul, Nat.add_zero]
    congr 2
    apply List.map_congr_left
    intro j _
    simp only [Function.comp, Nat.succ_eq_add_one]
    congr 1
    unfold sizeof_NodeRef; omega

theorem reverse_loop_run (r : NodeRefList) (rlast k : Nat) :
    ∀ (fuel : Nat), k < fuel →
      r.reverse_loop rlast fuel (rlast + k * sizeof_NodeRef)
        = some ((List.range k).reverse.map (fun j => r.data (rlast + j * sizeof_NodeRef))) := by
  induction k with
  | zero =>
    intro fuel hf
    obtain ⟨f, rfl⟩ : ∃ f, fuel = f + 1 := ⟨fuel - 1, by omega⟩
    simp [reverse_loop]
  | succ k ih =>
    intro fuel hf
    obtain ⟨f, rfl⟩ : ∃ f, fuel = f + 1 := ⟨fuel - 1, by omega⟩
    have hne : ¬ rlast + (k + 1) * sizeof_NodeRef = rlast := by
      unfold sizeof_NodeRef; omega
    have hprev : rlast + (k + 1) * sizeof_NodeRef - sizeof_NodeRef
        = rlast + k * sizeof_NodeRef := by
      unfold sizeof_NodeRef; omega
    rw [reverse_loop, if_neg hne, hprev, ih f (by omega)]
    simp only [Option.map_some', List.range_succ, List.reverse_append, List.reverse_cons,
      List.reverse_nil, List.nil_append, List.singleton_append, List.map_cons]

theorem forward_iteration_of_well_formed (r : NodeRefList) (N fuel : Nat)
    (h : r.well_formed N) (hf : N < fuel) :
    r.forward_iteration fuel = some (r.elements N) := by
  have hend : r.cend = r.cbegin + N * sizeof_NodeRef := h.1
  unfold forward_iteration
  rw [hend, forward_loop_run r N fuel r.cbegin hf]
  rfl

theorem reverse_iteration_of_well_formed (r : NodeRefList) (N fuel : Nat)
    (h : r.well_formed N) (hf : N < fuel) :
    r.reverse_iteration fuel = some (r.elements N).reverse := by
  have hend : r.crbegin = r.crend + N * sizeof_NodeRef := h.1
  unfold reverse_iteration
  rw [hend, reverse_loop_run r r.crend N fuel hf, elements, List.map_reverse]
  rfl

theorem length_elements (r : NodeRefList) (N : Nat) : (r.elements N).length = N := by
  simp [elements]

theorem getElem_elements (r : NodeRefList) (N i : Nat) (hi : i < N) :
    (r.elements N)[i]? = some (r.stored i) := by
  simp [elements, List.getElem?_map, List.getElem?_range hi]

/-! ## Appending -/

theorem byte_size_append (r : NodeRefList) (e : NodeRef) :
    (r.append e).byte_size = r.byte_size + sizeof_NodeRef := rfl

theorem well_formed_append (r : NodeRefList) (e : NodeRef) (N : Nat)
    (h : r.well_formed N) (hfit : r.byte_size + sizeof_NodeRef < size_t_range) :
    (r.append e).well_formed (N + 1) := by
  refine ⟨?_, hfit⟩
  rw [byte_size_append, h.1, Nat.add_mul, Nat.one_mul, Nat.add_assoc]

theorem stored_append_of_lt (r : NodeRefList) (e : NodeRef) (N i : Nat)
    (h : r.well_formed N) (hi : i < N) : (r.append e).stored i = r.stored i := by
  have hne : sizeof_NodeRefList + i * sizeof_NodeRef ≠ r.byte_size := by
    rw [h.1]; unfold sizeof_NodeRefList sizeof_NodeRef; omega
  unfold stored append
  exact Function.update_noteq hne e r.data

theorem stored_append_self (r : NodeRefList) (e : NodeRef) (N : Nat)
    (h : r.well_formed N) : (r.append e).stored N = e := by
  unfold stored append
  rw [← h.1]
  exact Function.update_same r.byte_size e r.data

theorem elements_append (r : NodeRefList) (e : NodeRef) (N : Nat) (h : r.well_formed N) :
    (r.append e).elements (N + 1) = r.elements N ++ [e] := by
  unfold elements
  rw [List.range_succ, List.map_append, List.map_singleton, stored_append_self r e N h]
  congr 1
  apply List.map_congr_left
  intro i hi
  exact stored_append_of_lt r e N i h (List.mem_range.mp hi)

theorem well_formed_init (itemtype : Nat) (buffer : Nat → NodeRef) :
    (init itemtype buffer).well_formed 0 := by
  constructor
  · show sizeof_NodeRefList = sizeof_NodeRefList + 0 * sizeof_NodeRef
    decide
  · show sizeof_NodeRefList < size_t_range
    decide

theorem foldl_append_spec (es : List NodeRef) :
    ∀ (r : NodeRefList) (N : Nat), r.well_formed N →
      r.byte_size + es.length * sizeof_NodeRef < size_t_range →
      (es.foldl append r).well_formed (N + es.length)
        ∧ (es.foldl append r).elements (N + es.length) = r.elements N ++ es := by
  induction es with
  | nil =>
    intro r N h _
    simpa using h
  | cons e es ih =>
    intro r N h hfit
    have hfit1 : r.byte_size + sizeof_NodeRef < size_t_range := by
      simp only [List.length_cons] at hfit
      unfold sizeof_NodeRef at hfit ⊢
      unfold size_t_range at hfit ⊢
      omega
    have hfit2 : (r.append e).byte_size + es.length * sizeof_NodeRef < size_t_range := by
      simp only [List.length_cons] at hfit
      rw [byte_size_append]
      unfold sizeof_NodeRef at hfit ⊢
      unfold size_t_range at hfit ⊢
      omega
    have step := ih (r.append e) (N + 1) (well_formed_append r e N h hfit1) hfit2
    have hlen : N + (e :: es).length = N + 1 + es.length := by
      simp only [List.length_cons]; omega
    rw [List.foldl_cons, hlen]
    refine ⟨step.1, ?_⟩
    rw [step.2, elements_append r e N h, List.append_assoc, List.singleton_append]

theorem build_spec (itemtype : Nat) (buffer : Nat → NodeRef) (es : List NodeRef)
    (hfit : sizeof_NodeRefList + es.length * sizeof_NodeRef < size_t_range) :
    (build itemtype buffer es).well_formed es.length
      ∧ (build itemtype buffer es).elements es.length = es := by
  have h := foldl_append_spec es (init itemtype buffer) 0 (well_formed_init itemtype buffer) hfit
  rw [Nat.zero_add] at h
  refine ⟨h.1, ?_⟩
  rw [build, h.2]
  rfl

theorem stored_build (itemtype : Nat) (buffer : Nat → NodeRef) (es : List NodeRef) (i : Nat)
    (hfit : sizeof_NodeRefList + es.length * sizeof_NodeRef < size_t_range)
    (hi : i < es.length) : es[i]? = some ((build itemtype buffer es).stored i) := by
  have h := getElem_elements (build itemtype buffer es) es.length i hi
  rw [(build_spec itemtype buffer es hfit).2] at h
  exact h

theorem four_fit : sizeof_NodeRefList + 4 * sizeof_NodeRef < size_t_range := by decide

end NodeRefList

/-! ## The properties of the class -/

open NodeRefList

/-- C1: a record whose stored byte size is the header plus `N` elements (and is
a value of the size field) has `size()` equal to `N`, and `empty()` is true
exactly when `N` is zero. -/
theorem size_eq_count_and_empty_iff_zero (r : NodeRefList) (N : Nat) (h : r.well_formed N) :
    r.size = .ok N ∧ (r.empty = true ↔ N = 0) := by
  refine ⟨size_of_well_formed r N h, ?_⟩
  rw [empty_of_well_formed r N h, decide_eq_true_iff]

theorem size_eq_count_and_empty_iff_zero_witness :
    (of_ids [10, 20, 30, 10]).well_formed 4 ∧
      ((of_ids [10, 20, 30, 10]).size = .ok 4 ∧
        ((of_ids [10, 20, 30, 10]).empty = true ↔ 4 = 0)) :=
  ⟨by decide, size_eq_count_and_empty_iff_zero (of_ids [10, 20, 30, 10]) 4 (by decide)⟩

/-- C2: on a well-formed view with `N ≥ 1` elements `front()` returns, and
returns what `operator[](0)` returns, the first stored element; `back()`
returns, and returns what `operator[](N-1)` returns, the last stored element. -/
theorem front_back_eq_operator_index (r : NodeRefList) (N : Nat) (h : r.well_formed N)
    (hN : 1 ≤ N) :
    (r.front = .ok (r.stored 0) ∧ r.front = r.operator_index 0) ∧
      (r.back = .ok (r.stored (N - 1)) ∧ r.back = r.operator_index (N - 1)) := by
  obtain ⟨M, rfl⟩ : ∃ M, N = M + 1 := ⟨N - 1, by omega⟩
  rw [Nat.add_sub_cancel, front_of_well_formed r M h, back_of_well_formed r M h,
    operator_index_of_lt r (M + 1) 0 h (Nat.succ_pos M),
    operator_index_of_lt r (M + 1) M h (Nat.lt_succ_self M)]
  exact ⟨⟨rfl, rfl⟩, rfl, rfl⟩

theorem front_back_eq_operator_index_witness :
    ((of_ids [7, 8, 9]).front = .ok ((of_ids [7, 8, 9]).stored 0) ∧
        (of_ids [7, 8, 9]).front = (of_ids [7, 8, 9]).operator_index 0) ∧
      ((of_ids [7, 8, 9]).back = .ok ((of_ids [7, 8, 9]).stored (3 - 1)) ∧
        (of_ids [7, 8, 9]).back = (of_ids [7, 8, 9]).operator_index (3 - 1)) :=
  front_back_eq_operator_index (of_ids [7, 8, 9]) 3 (by decide) (by decide)

/-- C3: on a non-empty well-formed view `is_closed()` returns a boolean, true
exactly when the first and the last stored element have the same reference id.
Appending the ids 10, 20, 30, 10 (with any locations, to any fresh record) gives
size 4, `is_closed()` true, and front and back id 10; appending 10, 20, 30, 40
gives `is_closed()` false. -/
theorem is_closed_iff_same_end_ids :
    (∀ (r : NodeRefList) (N : Nat), r.well_formed N → 1 ≤ N →
      ∃ b, r.is_closed = .ok b ∧ (b = true ↔ (r.stored 0).ref = (r.stored (N - 1)).ref)) ∧
    (∀ (itemtype : Nat) (buffer : Nat → NodeRef) (l1 l2 l3 l4 : Location),
      (build itemtype buffer [⟨10, l1⟩, ⟨20, l2⟩, ⟨30, l3⟩, ⟨10, l4⟩]).size = .ok 4 ∧
      (build itemtype buffer [⟨10, l1⟩, ⟨20, l2⟩, ⟨30, l3⟩, ⟨10, l4⟩]).is_closed = .ok true ∧
      (build itemtype buffer [⟨10, l1⟩, ⟨20, l2⟩, ⟨30, l3⟩, ⟨10, l4⟩]).front = .ok ⟨10, l1⟩ ∧
      (build itemtype buffer [⟨10, l1⟩, ⟨20, l2⟩, ⟨30, l3⟩, ⟨10, l4⟩]).back = .ok ⟨10, l4⟩) ∧
    (∀ (itemtype : Nat) (buffer : Nat → NodeRef) (l1 l2 l3 l4 : Location),
      (build itemtype buffer [⟨10, l1⟩, ⟨20, l2⟩, ⟨30, l3⟩, ⟨40, l4⟩]).is_closed
        = .ok false) := by
  refine ⟨?_, ?_, ?_⟩
  · intro r N h hN
    obtain ⟨M, rfl⟩ : ∃ M, N = M + 1 := ⟨N - 1, by omega⟩
    refine ⟨decide ((r.stored 0).ref = (r.stored M).ref), ?_, ?_⟩
    · exact ends_have_same_id_of_well_formed r M h
    · rw [Nat.add_sub_cancel, decide_eq_true_iff]
  · intro itemtype buffer l1 l2 l3 l4
    have hw := (build_spec itemtype buffer [⟨10, l1⟩, ⟨20, l2⟩, ⟨30, l3⟩, ⟨10, l4⟩] four_fit).1
    have h0 := stored_build itemtype buffer [⟨10, l1⟩, ⟨20, l2⟩, ⟨30, l3⟩, ⟨10, l4⟩] 0
      four_fit (by simp)
    have h3 := stored_build itemtype buffer [⟨10, l1⟩, ⟨20, l2⟩, ⟨30, l3⟩, ⟨10, l4⟩] 3
      four_fit (by simp)
    simp only [List.getElem?_cons_zero, List.getElem?_cons_succ, Option.some.injEq] at h0 h3
    refine ⟨size_of_well_formed _ 4 hw, ?_, ?_, ?_⟩
    · show NodeRefList.ends_have_same_id _ = _
      rw [ends_have_same_id_of_well_formed _ 3 hw, ← h0, ← h3]
      rfl
    · rw [front_of_well_formed _ 3 hw, ← h0]
    · rw [back_of_well_formed _ 3 hw, ← h3]
  · intro itemtype buffer l1 l2 l3 l4
    have hw := (build_spec itemtype buffer [⟨10, l1⟩, ⟨20, l2⟩, ⟨30, l3⟩, ⟨40, l4⟩] four_fit).1
    have h0 := stored_build itemtype buffer [⟨10, l1⟩, ⟨20, l2⟩, ⟨30, l3⟩, ⟨40, l4⟩] 0
      four_fit (by simp)
    have h3 := stored_build itemtype buffer [⟨10, l1⟩, ⟨20, l2⟩, ⟨30, l3⟩, ⟨40, l4⟩] 3
      four_fit (by simp)
    simp only [List.getElem?_cons_zero, List.getElem?_cons_succ, Option.some.injEq] at h0 h3
    show NodeRefList.ends_have_same_id _ = _
    rw [ends_have_same_id_of_well_formed _ 3 hw, ← h0, ← h3]
    rfl

theorem is_closed_iff_same_end_ids_witness :
    ∃ b, (of_ids [10, 20, 30, 10]).is_closed = .ok b ∧
      (b = true ↔
        ((of_ids [10, 20, 30, 10]).stored 0).ref = ((of_ids [10, 20, 30, 10]).stored (4 - 1)).ref) :=
  is_closed_iff_same_end_ids.1 (of_ids [10, 20, 30, 10]) 4 (by decide) (by decide)

/-- C4: on an empty view (stored byte size equal to the header size) `front()`,
`back()`, `is_closed()` and `ends_have_same_id()` all stop at the assertion
`!empty()`; none returns a value. -/
theorem empty_view_fails_not_empty (r : NodeRefList) (h : r.byte_size = sizeof_NodeRefList) :
    r.front = .error .not_empty ∧ r.back = .error .not_empty ∧
      r.is_closed = .error .not_empty ∧ r.ends_have_same_id = .error .not_empty := by
  have he : r.empty = true := by
    unfold NodeRefList.empty
    rw [h]
    exact decide_eq_true rfl
  exact ⟨front_of_empty r he, back_of_empty r he, ends_have_same_id_of_empty r he,
    ends_have_same_id_of_empty r he⟩

theorem empty_view_fails_not_empty_witness :
    (of_ids []).byte_size = sizeof_NodeRefList ∧
      ((of_ids []).front = .error .not_empty ∧ (of_ids []).back = .error .not_empty ∧
        (of_ids []).is_closed = .error .not_empty ∧
        (of_ids []).ends_have_same_id = .error .not_empty) :=
  ⟨by decide, empty_view_fails_not_empty (of_ids []) (by decide)⟩

/-- C5: on a well-formed view with `N` elements `operator[](n)` ends in an
assertion failure exactly when `n ≥ N`, the failing assertion being
`n < size()`; for `n < N` it returns the element stored at position `n`. -/
theorem operator_index_fails_iff_out_of_range (r : NodeRefList) (N n : Nat)
    (h : r.well_formed N) :
    r.size = .ok N ∧
      ((∃ a, r.operator_index n = .error a) ↔ N ≤ n) ∧
      (N ≤ n → r.operator_index n = .error .index_in_range) ∧
      (n < N → r.operator_index n = .ok (r.stored n)) := by
  refine ⟨size_of_well_formed r N h, ⟨?_, ?_⟩, operator_index_of_ge r N n h,
    operator_index_of_lt r N n h⟩
  · rintro ⟨a, ha⟩
    by_contra hlt
    rw [operator_index_of_lt r N n h (by omega)] at ha
    cases ha
  · intro hge
    exact ⟨_, operator_index_of_ge r N n h hge⟩

theorem operator_index_fails_iff_out_of_range_witness :
    (of_ids [5, 6]).size = .ok 2 ∧
      ((∃ a, (of_ids [5, 6]).operator_index 1 = .error a) ↔ 2 ≤ 1) ∧
      (2 ≤ 1 → (of_ids [5, 6]).operator_index 1 = .error .index_in_range) ∧
      (1 < 2 → (of_ids [5, 6]).operator_index 1 = .ok ((of_ids [5, 6]).stored 1)) :=
  operator_index_fails_iff_out_of_range (of_ids [5, 6]) 2 1 (by decide)

/-- C6: on a non-empty well-formed view whose first and last stored elements
both have a present location, `ends_have_same_location()` returns a boolean,
true exactly when the two locations are equal; the outcome is the same for any
two such views whose end locations agree, whatever the reference ids; when
either end has no location the call stops at the assertion on the locations,
and on an empty view it stops at the assertion `!empty()` of `front()`.  The
record `located_ends`, whose ends share a location and differ in id, gives
true while `ends_have_same_id()` gives false. -/
theorem ends_have_same_location_iff_equal :
    (∀ (r : NodeRefList) (N : Nat), r.well_formed N → 1 ≤ N →
      (r.stored 0).location.valid = true → (r.stored (N - 1)).location.valid = true →
      ∃ b, r.ends_have_same_location = .ok b ∧
        (b = true ↔ (r.stored 0).location = (r.stored (N - 1)).location)) ∧
    (∀ (r r2 : NodeRefList) (N N2 : Nat), r.well_formed N → r2.well_formed N2 →
      1 ≤ N → 1 ≤ N2 →
      (r.stored 0).location = (r2.stored 0).location →
      (r.stored (N - 1)).location = (r2.stored (N2 - 1)).location →
      r.ends_have_same_location = r2.ends_have_same_location) ∧
    (∀ (r : NodeRefList) (N : Nat), r.well_formed N → 1 ≤ N →
      ((r.stored 0).location.valid = false ∨ (r.stored (N - 1)).location.valid = false) →
      r.ends_have_same_location = .error .locations_valid) ∧
    (∀ (r : NodeRefList), r.empty = true →
      r.ends_have_same_location = .error .not_empty) ∧
    (located_ends.ends_have_same_location = .ok true ∧
      located_ends.ends_have_same_id = .ok false) := by
  refine ⟨?_, ?_, ?_, ends_have_same_location_of_empty, by decide⟩
  · intro r N h hN hf hb
    obtain ⟨M, rfl⟩ : ∃ M, N = M + 1 := ⟨N - 1, by omega⟩
    rw [Nat.add_sub_cancel] at hb ⊢
    exact ⟨_, ends_have_same_location_of_well_formed r M h hf hb, decide_eq_true_iff⟩
  · intro r r2 N N2 h h2 hN hN2 e0 e1
    obtain ⟨M, rfl⟩ : ∃ M, N = M + 1 := ⟨N - 1, by omega⟩
    obtain ⟨M2, rfl⟩ : ∃ M2, N2 = M2 + 1 := ⟨N2 - 1, by omega⟩
    simp only [Nat.add_sub_cancel] at e1
    by_cases hv : (r.stored 0).location.valid = true ∧ (r.stored M).location.valid = true
    · rw [ends_have_same_location_of_well_formed r M h hv.1 hv.2,
        ends_have_same_location_of_well_formed r2 M2 h2 (e0 ▸ hv.1) (e1 ▸ hv.2), e0, e1]
    · have hv1 : (r.stored 0).location.valid = false ∨ (r.stored M).location.valid = false := by
        cases h0 : (r.stored 0).location.valid with
        | false => exact Or.inl rfl
        | true =>
          cases h1 : (r.stored M).location.valid with
          | false => exact Or.inr rfl
          | true => exact absurd ⟨h0, h1⟩ hv
      rw [ends_have_same_location_of_invalid r M h hv1,
        ends_have_same_location_of_invalid r2 M2 h2 (e0 ▸ e1 ▸ hv1)]
  · intro r N h hN hv
    obtain ⟨M, rfl⟩ : ∃ M, N = M + 1 := ⟨N - 1, by omega⟩
    rw [Nat.add_sub_cancel] at hv
    exact ends_have_same_location_of_invalid r M h hv

theorem ends_have_same_location_iff_equal_witness :
    ∃ b, located_ends.ends_have_same_location = .ok b ∧
      (b = true ↔ (located_ends.stored 0).location = (located_ends.stored (3 - 1)).location) :=
  ends_have_same_location_iff_equal.1 located_ends 3 (by decide) (by decide) (by decide)
    (by decide)

/-- C7: on a well-formed view with `N` elements, with fuel for more than `N`
steps, forward iteration and reverse iteration both finish, and the reverse
sequence is the forward sequence reversed: same length, same elements with
the same multiplicities, opposite order. -/
theorem reverse_iteration_eq_reverse (r : NodeRefList) (N fuel : Nat) (h : r.well_formed N)
    (hf : N < fuel) :
    ∃ fwd rev, r.forward_iteration fuel = some fwd ∧ r.reverse_iteration fuel = some rev ∧
      rev = fwd.reverse ∧ rev.length = fwd.length ∧ rev.Perm fwd :=
  ⟨r.elements N, (r.elements N).reverse, forward_iteration_of_well_formed r N fuel h hf,
    reverse_iteration_of_well_formed r N fuel h hf, rfl, List.length_reverse _,
    List.reverse_perm _⟩

theorem reverse_iteration_eq_reverse_witness :
    ∃ fwd rev, (of_ids [1, 2, 3]).forward_iteration 4 = some fwd ∧
      (of_ids [1, 2, 3]).reverse_iteration 4 = some rev ∧
      rev = fwd.reverse ∧ rev.length = fwd.length ∧ rev.Perm fwd :=
  reverse_iteration_eq_reverse (of_ids [1, 2, 3]) 3 4 (by decide) (by decide)

/-- C8: on a well-formed view with `N` elements, with fuel for more than `N`
steps, forward iteration from `cbegin()` to `cend()` finishes, visits exactly
`size()` elements, the `i`-th visited being what `operator[](i)` returns, and
`cend()` lies `size()` times the element size after `cbegin()`. -/
theorem forward_iteration_visits_each_index (r : NodeRefList) (N fuel : Nat)
    (h : r.well_formed N) (hf : N < fuel) :
    ∃ visited, r.forward_iteration fuel = some visited ∧
      r.size = .ok visited.length ∧ visited.length = N ∧
      (∀ i, i < N → ∃ e, visited[i]? = some e ∧ r.operator_index i = .ok e) ∧
      r.cend = r.cbegin + N * sizeof_NodeRef ∧ r.cend - r.cbegin = N * sizeof_NodeRef := by
  refine ⟨r.elements N, forward_iteration_of_well_formed r N fuel h hf, ?_,
    length_elements r N, ?_, h.1, ?_⟩
  · rw [length_elements, size_of_well_formed r N h]
  · intro i hi
    exact ⟨r.stored i, getElem_elements r N i hi, operator_index_of_lt r N i h hi⟩
  · have hend : r.cend = r.cbegin + N * sizeof_NodeRef := h.1
    rw [hend, Nat.add_sub_cancel_left]

theorem forward_iteration_visits_each_index_witness :
    ∃ visited, (of_ids [4, 5, 6]).forward_iteration 4 = some visited ∧
      (of_ids [4, 5, 6]).size = .ok visited.length ∧ visited.length = 3 ∧
      (∀ i, i < 3 → ∃ e, visited[i]? = some e ∧ (of_ids [4, 5, 6]).operator_index i = .ok e) ∧
      (of_ids [4, 5, 6]).cend = (of_ids [4, 5, 6]).cbegin + 3 * sizeof_NodeRef ∧
      (of_ids [4, 5, 6]).cend - (of_ids [4, 5, 6]).cbegin = 3 * sizeof_NodeRef :=
  forward_iteration_visits_each_index (of_ids [4, 5, 6]) 3 4 (by decide) (by decide)

/-- C9: appending one element to a well-formed record with `N` elements, when
the grown byte size is still a value of the size field, gives a record whose
`size()` is `N + 1`, whose `operator[](i)` returns for every `i < N` what it
returned before, and whose `operator[](N)` returns the appended element. -/
theorem append_grows_by_one_and_keeps_elements (r : NodeRefList) (e : NodeRef) (N : Nat)
    (h : r.well_formed N) (hfit : r.byte_size + sizeof_NodeRef < size_t_range) :
    (r.append e).byte_size = r.byte_size + sizeof_NodeRef ∧
      (r.append e).size = .ok (N + 1) ∧
      (∀ i, i < N → (r.append e).operator_index i = r.operator_index i ∧
        r.operator_index i = .ok (r.stored i)) ∧
      (r.append e).operator_index N = .ok e := by
  have hw := well_formed_append r e N h hfit
  refine ⟨rfl, size_of_well_formed _ (N + 1) hw, ?_, ?_⟩
  · intro i hi
    rw [operator_index_of_lt _ (N + 1) i hw (by omega), operator_index_of_lt r N i h hi,
      stored_append_of_lt r e N i h hi]
    exact ⟨rfl, rfl⟩
  · rw [operator_index_of_lt _ (N + 1) N hw (Nat.lt_succ_self N), stored_append_self r e N h]

theorem append_grows_by_one_and_keeps_elements_witness :
    ((of_ids [1, 2]).append (node_ref_of_id 3)).byte_size
        = (of_ids [1, 2]).byte_size + sizeof_NodeRef ∧
      ((of_ids [1, 2]).append (node_ref_of_id 3)).size = .ok (2 + 1) ∧
      (∀ i, i < 2 →
        ((of_ids [1, 2]).append (node_ref_of_id 3)).operator_index i
            = (of_ids [1, 2]).operator_index i ∧
          (of_ids [1, 2]).operator_index i = .ok ((of_ids [1, 2]).stored i)) ∧
      ((of_ids [1, 2]).append (node_ref_of_id 3)).operator_index 2 = .ok (node_ref_of_id 3) :=
  append_grows_by_one_and_keeps_elements (of_ids [1, 2]) (node_ref_of_id 3) 2 (by decide)
    (by decide)

/-- C10: `is_closed()` and `ends_have_same_id()` are one operation: they have
the same outcome on every view; on an empty view both stop at the assertion
`!empty()`, and on a non-empty well-formed view both return the same boolean. -/
theorem is_closed_same_as_ends_have_same_id :
    (∀ (r : NodeRefList), r.is_closed = r.ends_have_same_id) ∧
    (∀ (r : NodeRefList), r.empty = true →
      r.is_closed = .error .not_empty ∧ r.ends_have_same_id = .error .not_empty) ∧
    (∀ (r : NodeRefList) (N : Nat), r.well_formed N → 1 ≤ N →
      ∃ b, r.is_closed = .ok b ∧ r.ends_have_same_id = .ok b) := by
  refine ⟨fun _ => rfl, ?_, ?_⟩
  · intro r he
    exact ⟨ends_have_same_id_of_empty r he, ends_have_same_id_of_empty r he⟩
  · intro r N h hN
    obtain ⟨M, rfl⟩ : ∃ M, N = M + 1 := ⟨N - 1, by omega⟩
    exact ⟨_, ends_have_same_id_of_well_formed r M h, ends_have_same_id_of_well_formed r M h⟩

theorem is_closed_same_as_ends_have_same_id_witness :
    ((of_ids []).is_closed = .error .not_empty ∧
        (of_ids []).ends_have_same_id = .error .not_empty) ∧
      ∃ b, (of_ids [3, 4, 3]).is_closed = .ok b ∧ (of_ids [3, 4, 3]).ends_have_same_id = .ok b :=
  ⟨is_closed_same_as_ends_have_same_id.2.1 (of_ids []) (by decide),
    is_closed_same_as_ends_have_same_id.2.2 (of_ids [3, 4, 3]) 3 (by decide) (by decide)⟩

/-! ## Records that break the invariant, and the type tag -/

namespace NodeRefList

theorem size_unfolded (r : NodeRefList) :
    r.size = if r.size_node_refs % sizeof_NodeRef = 0 then
      .ok (r.size_node_refs / sizeof_NodeRef) else .error .size_multiple := rfl

theorem size_node_refs_multiple_iff (r : NodeRefList) :
    r.size_node_refs % sizeof_NodeRef = 0 ↔ r.record_invariant := by
  unfold size_node_refs record_invariant sizeof_NodeRefList sizeof_NodeRef size_t_range
  omega

theorem size_node_refs_of_small (r : NodeRefList) (h : r.byte_size < sizeof_NodeRefList) :
    r.size_node_refs = r.byte_size + size_t_range - sizeof_NodeRefList := by
  unfold size_node_refs
  unfold sizeof_NodeRefList at h ⊢
  unfold size_t_range
  omega

theorem size_node_refs_of_large (r : NodeRefList) (h : sizeof_NodeRefList ≤ r.byte_size)
    (hlt : r.byte_size < size_t_range) :
    r.size_node_refs = r.byte_size - sizeof_NodeRefList := by
  unfold size_node_refs
  unfold sizeof_NodeRefList at h ⊢
  unfold size_t_range at hlt ⊢
  omega

theorem well_formed_of_invariant (r : NodeRefList) (h : r.record_invariant)
    (hlt : r.byte_size < size_t_range) :
    r.well_formed ((r.byte_size - sizeof_NodeRefList) / sizeof_NodeRef) := by
  refine ⟨?_, hlt⟩
  unfold record_invariant at h
  unfold sizeof_NodeRefList sizeof_NodeRef at h ⊢
  omega

end NodeRefList

/-- C11: `size()` returns a value exactly when the stored byte size satisfies
the record invariant (at least the header size, and a whole number of elements
after the header); when the invariant is broken it stops at its assertion.  For
a byte size below the header size the unsigned subtraction wraps to
`byte_size + 2^64 - 8`, which is no multiple of 16.  When the invariant holds
for a byte size of the size field the value returned is the element count. -/
theorem size_succeeds_iff_record_invariant (r : NodeRefList) :
    ((∃ n, r.size = .ok n) ↔ r.record_invariant) ∧
    (¬ r.record_invariant → r.size = .error .size_multiple) ∧
    (r.byte_size < sizeof_NodeRefList →
      r.size_node_refs = r.byte_size + size_t_range - sizeof_NodeRefList ∧
      r.size_node_refs % sizeof_NodeRef ≠ 0 ∧ r.size = .error .size_multiple) ∧
    (r.record_invariant → r.byte_size < size_t_range →
      r.size = .ok ((r.byte_size - sizeof_NodeRefList) / sizeof_NodeRef)) := by
  have hfail : ¬ r.record_invariant → r.size = .error .size_multiple := by
    intro hn
    rw [size_unfolded, if_neg (fun hm => hn ((size_node_refs_multiple_iff r).mp hm))]
  refine ⟨⟨?_, ?_⟩, hfail, ?_, ?_⟩
  · rintro ⟨n, hn⟩
    by_contra hinv
    rw [hfail hinv] at hn
    cases hn
  · intro hinv
    rw [size_unfolded, if_pos ((size_node_refs_multiple_iff r).mpr hinv)]
    exact ⟨_, rfl⟩
  · intro hsmall
    have hinv : ¬ r.record_invariant := fun hi => absurd hi.1 (Nat.not_le.mpr hsmall)
    exact ⟨size_node_refs_of_small r hsmall,
      fun hm => hinv ((size_node_refs_multiple_iff r).mp hm), hfail hinv⟩
  · intro hinv hlt
    exact size_of_well_formed r _ (well_formed_of_invariant r hinv hlt)

theorem size_succeeds_iff_record_invariant_witness :
    (one_byte_past_header.size = .error .size_multiple) ∧
      ((of_ids [1, 2]).size = .ok (((of_ids [1, 2]).byte_size - sizeof_NodeRefList)
        / sizeof_NodeRef)) :=
  ⟨(size_succeeds_iff_record_invariant one_byte_past_header).2.1 (by decide),
    (size_succeeds_iff_record_invariant (of_ids [1, 2])).2.2.2 (by decide) (by decide)⟩

/-- C13: a record freshly constructed with type tag `t` has byte size equal to
`sizeof(NodeRefList)`, so `empty()` is true and `size()` is 0, and its type tag
is `t`. -/
theorem fresh_record_is_empty (itemtype : Nat) (buffer : Nat → NodeRef) :
    (init itemtype buffer).byte_size = sizeof_NodeRefList ∧
      (init itemtype buffer).empty = true ∧
      (init itemtype buffer).size = .ok 0 ∧
      (init itemtype buffer).item_type = itemtype :=
  ⟨rfl, (empty_of_well_formed _ 0 (well_formed_init itemtype buffer)).trans rfl,
    size_of_well_formed _ 0 (well_formed_init itemtype buffer), rfl⟩

namespace NodeRefList

theorem forward_loop_short (r : NodeRefList) (fuel : Nat) :
    ∀ (k it : Nat), fuel ≤ k → r.forward_loop (it + k * sizeof_NodeRef) fuel it = none := by
  induction fuel with
  | zero => intro k it _; rfl
  | succ f ih =>
    intro k it hk
    obtain ⟨j, rfl⟩ : ∃ j, k = j + 1 := ⟨k - 1, by omega⟩
    have hne : ¬ it = it + (j + 1) * sizeof_NodeRef := by
      unfold sizeof_NodeRef; omega
    have hlast : it + (j + 1) * sizeof_NodeRef = (it + sizeof_NodeRef) + j * sizeof_NodeRef := by
      unfold sizeof_NodeRef; omega
    rw [forward_loop, if_neg hne, hlast, ih j (it + sizeof_NodeRef) (by omega)]
    rfl

theorem reverse_loop_short (r : NodeRefList) (rlast fuel : Nat) :
    ∀ (k : Nat), fuel ≤ k → r.reverse_loop rlast fuel (rlast + k * sizeof_NodeRef) = none := by
  induction fuel with
  | zero => intro k _; rfl
  | succ f ih =>
    intro k hk
    obtain ⟨j, rfl⟩ : ∃ j, k = j + 1 := ⟨k - 1, by omega⟩
    have hne : ¬ rlast + (j + 1) * sizeof_NodeRef = rlast := by
      unfold sizeof_NodeRef; omega
    have hprev : rlast + (j + 1) * sizeof_NodeRef - sizeof_NodeRef
        = rlast + j * sizeof_NodeRef := by
      unfold sizeof_NodeRef; omega
    rw [reverse_loop, if_neg hne, hprev, ih j (by omega)]
    rfl

theorem forward_iteration_short (r : NodeRefList) (N fuel : Nat) (h : r.well_formed N)
    (hf : fuel ≤ N) : r.forward_iteration fuel = none := by
  have hend : r.cend = r.cbegin + N * sizeof_NodeRef := h.1
  unfold forward_iteration
  rw [hend, forward_loop_short r fuel N r.cbegin hf]

theorem reverse_iteration_short (r : NodeRefList) (N fuel : Nat) (h : r.well_formed N)
    (hf : fuel ≤ N) : r.reverse_iteration fuel = none := by
  have hend : r.crbegin = r.crend + N * sizeof_NodeRef := h.1
  unfold reverse_iteration
  rw [hend, reverse_loop_short r r.crend fuel N hf]

theorem forward_loop_same_buffer (a b : NodeRefList) (hd : a.data = b.data) (last fuel : Nat) :
    ∀ it, a.forward_loop last fuel it = b.forward_loop last fuel it := by
  induction fuel with
  | zero => intro it; rfl
  | succ f ih => intro it; rw [forward_loop, forward_loop, ih, hd]

theorem reverse_loop_same_buffer (a b : NodeRefList) (hd : a.data = b.data) (rlast fuel : Nat) :
    ∀ rit, a.reverse_loop rlast fuel rit = b.reverse_loop rlast fuel rit := by
  induction fuel with
  | zero => intro rit; rfl
  | succ f ih => intro rit; rw [reverse_loop, reverse_loop, ih, hd]

theorem elements_congr (a b : NodeRefList) (N : Nat)
    (hs : ∀ i, i < N → a.stored i = b.stored i) : a.elements N = b.elements N := by
  unfold elements
  apply List.map_congr_left
  intro i hi
  exact hs i (List.mem_range.mp hi)

theorem ends_have_same_location_congr (a b : NodeRefList) (M : Nat)
    (ha : a.well_formed (M + 1)) (hb : b.well_formed (M + 1))
    (e0 : a.stored 0 = b.stored 0) (e1 : a.stored M = b.stored M) :
    a.ends_have_same_location = b.ends_have_same_location := by
  by_cases hv : (a.stored 0).location.valid = true ∧ (a.stored M).location.valid = true
  · rw [ends_have_same_location_of_well_formed a M ha hv.1 hv.2,
      ends_have_same_location_of_well_formed b M hb (e0 ▸ hv.1) (e1 ▸ hv.2), e0, e1]
  · have hv1 : (a.stored 0).location.valid = false ∨ (a.stored M).location.valid = false := by
      cases h0 : (a.stored 0).location.valid with
      | false => exact Or.inl rfl
      | true =>
        cases h1 : (a.stored M).location.valid with
        | false => exact Or.inr rfl
        | true => exact absurd ⟨h0, h1⟩ hv
    rw [ends_have_same_location_of_invalid a M ha hv1,
      ends_have_same_location_of_invalid b M hb (e0 ▸ e1 ▸ hv1)]

theorem same_outcomes_of_same_header_and_buffer (a b : NodeRefList)
    (hs : a.byte_size = b.byte_size) (hd : a.data = b.data) : a.same_outcomes b := by
  obtain ⟨ta, sa, da⟩ := a
  obtain ⟨tb, sb, db⟩ := b
  simp only at hs hd
  subst hs
  subst hd
  refine ⟨rfl, rfl, fun _ => rfl, rfl, rfl, rfl, rfl, rfl, ?_, ?_⟩
  · intro fuel
    exact forward_loop_same_buffer ⟨ta, sa, da⟩ ⟨tb, sa, da⟩ rfl sa fuel sizeof_NodeRefList
  · intro fuel
    exact reverse_loop_same_buffer ⟨ta, sa, da⟩ ⟨tb, sa, da⟩ rfl sizeof_NodeRefList fuel sa

theorem same_outcomes_of_same_elements (a b : NodeRefList) (N : Nat)
    (ha : a.well_formed N) (hb : b.well_formed N)
    (hs : ∀ i, i < N → a.stored i = b.stored i) : a.same_outcomes b := by
  have hsize : a.size = b.size := by
    rw [size_of_well_formed a N ha, size_of_well_formed b N hb]
  have hempty : a.empty = b.empty := by
    rw [empty_of_well_formed a N ha, empty_of_well_formed b N hb]
  have hindex : ∀ n, a.operator_index n = b.operator_index n := by
    intro n
    by_cases hn : n < N
    · rw [operator_index_of_lt a N n ha hn, operator_index_of_lt b N n hb hn, hs n hn]
    · rw [operator_index_of_ge a N n ha (by omega), operator_index_of_ge b N n hb (by omega)]
  have hfwd : ∀ fuel, a.forward_iteration fuel = b.forward_iteration fuel := by
    intro fuel
    by_cases hf : N < fuel
    · rw [forward_iteration_of_well_formed a N fuel ha hf,
        forward_iteration_of_well_formed b N fuel hb hf, elements_congr a b N hs]
    · rw [forward_iteration_short a N fuel ha (by omega),
        forward_iteration_short b N fuel hb (by omega)]
  have hrev : ∀ fuel, a.reverse_iteration fuel = b.reverse_iteration fuel := by
    intro fuel
    by_cases hf : N < fuel
    · rw [reverse_iteration_of_well_formed a N fuel ha hf,
        reverse_iteration_of_well_formed b N fuel hb hf, elements_congr a b N hs]
    · rw [reverse_iteration_short a N fuel ha (by omega),
        reverse_iteration_short b N fuel hb (by omega)]
  cases N with
  | zero =>
    have ea : a.empty = true := by rw [empty_of_well_formed a 0 ha]; rfl
    have eb : b.empty = true := by rw [empty_of_well_formed b 0 hb]; rfl
    refine ⟨hsize, hempty, hindex, ?_, ?_, ?_, ?_, ?_, hfwd, hrev⟩
    · rw [front_of_empty a ea, front_of_empty b eb]
    · rw [back_of_empty a ea, back_of_empty b eb]
    · show a.ends_have_same_id = b.ends_have_same_id
      rw [ends_have_same_id_of_empty a ea, ends_have_same_id_of_empty b eb]
    · rw [ends_have_same_id_of_empty a ea, ends_have_same_id_of_empty b eb]
    · rw [ends_have_same_location_of_empty a ea, ends_have_same_location_of_empty b eb]
  | succ M =>
    have e0 := hs 0 (Nat.succ_pos M)
    have e1 := hs M (Nat.lt_succ_self M)
    refine ⟨hsize, hempty, hindex, ?_, ?_, ?_, ?_, ?_, hfwd, hrev⟩
    · rw [front_of_well_formed a M ha, front_of_well_formed b M hb, e0]
    · rw [back_of_well_formed a M ha, back_of_well_formed b M hb, e1]
    · show a.ends_have_same_id = b.ends_have_same_id
      rw [ends_have_same_id_of_well_formed a M ha, ends_have_same_id_of_well_formed b M hb,
        e0, e1]
    · rw [ends_have_same_id_of_well_formed a M ha, ends_have_same_id_of_well_formed b M hb,
        e0, e1]
    · exact ends_have_same_location_congr a b M ha hb e0 e1

end NodeRefList

/-- C12: no operation of the view reads the type tag.  A view and the same
view under any other type tag give the same outcome, failures included, in
`size()`, `empty()`, `operator[]`, `front()`, `back()`, `is_closed()`,
`ends_have_same_location()` and forward and reverse iteration; and so do any
two well-formed views with the same number of elements and the same stored
elements, whatever their type tags. -/
theorem type_tag_is_not_read :
    (∀ (r : NodeRefList) (itemtype : Nat), (r.retagged itemtype).same_outcomes r) ∧
    (∀ (a b : NodeRefList) (N : Nat), a.well_formed N → b.well_formed N →
      (∀ i, i < N → a.stored i = b.stored i) → a.same_outcomes b) :=
  ⟨fun r _ => same_outcomes_of_same_header_and_buffer _ r rfl rfl,
    same_outcomes_of_same_elements⟩

theorem type_tag_is_not_read_witness :
    (of_ids [10, 20, 30, 10]).same_outcomes ((of_ids [10, 20, 30, 10]).retagged 7) :=
  type_tag_is_not_read.2 (of_ids [10, 20, 30, 10]) ((of_ids [10, 20, 30, 10]).retagged 7) 4
    (by decide) (by decide) (by decide)

/-- C14: on non-empty well-formed views the outcome of `is_closed()` and of
`ends_have_same_id()` does not depend on locations: two views with the same
reference ids at every position, whatever their locations, give the same
result. -/
theorem is_closed_ignores_locations (a b : NodeRefList) (N : Nat)
    (ha : a.well_formed N) (hb : b.well_formed N) (hN : 1 ≤ N)
    (hids : ∀ i, i < N → (a.stored i).ref = (b.stored i).ref) :
    a.is_closed = b.is_closed ∧ a.ends_have_same_id = b.ends_have_same_id ∧
      ∃ closed, a.is_closed = .ok closed := by
  obtain ⟨M, rfl⟩ : ∃ M, N = M + 1 := ⟨N - 1, by omega⟩
  have hsame : a.ends_have_same_id = b.ends_have_same_id := by
    rw [ends_have_same_id_of_well_formed a M ha, ends_have_same_id_of_well_formed b M hb,
      hids 0 (Nat.succ_pos M), hids M (Nat.lt_succ_self M)]
  exact ⟨hsame, hsame, _, ends_have_same_id_of_well_formed a M ha⟩

theorem is_closed_ignores_locations_witness :
    (of_ids [3, 4, 3]).is_closed = located_ids.is_closed ∧
      (of_ids [3, 4, 3]).ends_have_same_id = located_ids.ends_have_same_id ∧
      ∃ closed, (of_ids [3, 4, 3]).is_closed = .ok closed :=
  is_closed_ignores_locations (of_ids [3, 4, 3]) located_ids 3 (by decide) (by decide)
    (by decide) (by decide)

/-- C15: on a well-formed view and for an index `n < size()`, `operator[](n)`
returns the element read at byte offset `sizeof(NodeRefList) + n * sizeof(NodeRef)`
from the start of the record, and that element ends inside the record: the
offset is at or after `cbegin()` and the element ends at or before `cend()`,
the stored byte size. -/
theorem operator_index_reads_inside_record (r : NodeRefList) (N n : Nat)
    (h : r.well_formed N) (hn : n < N) :
    r.size = .ok N ∧
      r.operator_index n = .ok (r.data (sizeof_NodeRefList + n * sizeof_NodeRef)) ∧
      sizeof_NodeRefList + (n + 1) * sizeof_NodeRef ≤ r.byte_size ∧
      r.cbegin ≤ sizeof_NodeRefList + n * sizeof_NodeRef ∧
      sizeof_NodeRefList + n * sizeof_NodeRef + sizeof_NodeRef ≤ r.cend := by
  have hsize : r.byte_size = sizeof_NodeRefList + N * sizeof_NodeRef := h.1
  refine ⟨size_of_well_formed r N h, operator_index_of_lt r N n h hn, ?_, ?_, ?_⟩
  · rw [hsize]
    exact Nat.add_le_add_left (Nat.mul_le_mul_right _ hn) _
  · exact Nat.le_add_right _ _
  · show _ ≤ r.byte_size
    rw [hsize, Nat.add_assoc, ← Nat.succ_mul]
    exact Nat.add_le_add_left (Nat.mul_le_mul_right _ hn) _

theorem operator_index_reads_inside_record_witness :
    (of_ids [4, 5, 6]).size = .ok 3 ∧
      (of_ids [4, 5, 6]).operator_index 2
        = .ok ((of_ids [4, 5, 6]).data (sizeof_NodeRefList + 2 * sizeof_NodeRef)) ∧
      sizeof_NodeRefList + (2 + 1) * sizeof_NodeRef ≤ (of_ids [4, 5, 6]).byte_size ∧
      (of_ids [4, 5, 6]).cbegin ≤ sizeof_NodeRefList + 2 * sizeof_NodeRef ∧
      sizeof_NodeRefList + 2 * sizeof_NodeRef + sizeof_NodeRef ≤ (of_ids [4, 5, 6]).cend :=
  operator_index_reads_inside_record (of_ids [4, 5, 6]) 3 2 (by decide) (by decide)

/-- C16: on a view that satisfies the record invariant (with a byte size of the
size field), `!empty()` implies that `size()` returns a count of at least 1;
then `front()` and `back()` return the first and the last stored element, so
the assertion inside `operator[]` does not fail, and the index `size() - 1` of
`back()` is computed without wrapping.  Without the invariant this is lost: the
byte size 9 lies strictly between the header size and the header plus one
element, `empty()` is false, and the quotient by the element size is 0 (with assertions
enabled `size()` stops at its assertion there). -/
theorem not_empty_gives_an_element :
    (∀ (r : NodeRefList), r.record_invariant → r.byte_size < size_t_range →
      r.empty = false →
      ∃ count, 1 ≤ count ∧ r.size = .ok count ∧
        (count + size_t_range - 1) % size_t_range = count - 1 ∧
        r.front = .ok (r.stored 0) ∧ r.front = r.operator_index 0 ∧
        r.back = .ok (r.stored (count - 1)) ∧ r.back = r.operator_index (count - 1)) ∧
    (sizeof_NodeRefList < one_byte_past_header.byte_size ∧
      one_byte_past_header.byte_size < sizeof_NodeRefList + sizeof_NodeRef ∧
      one_byte_past_header.empty = false ∧
      (one_byte_past_header.byte_size - sizeof_NodeRefList) / sizeof_NodeRef = 0 ∧
      one_byte_past_header.size_node_refs / sizeof_NodeRef = 0 ∧
      one_byte_past_header.size = .error .size_multiple ∧
      ¬ one_byte_past_header.record_invariant) := by
  refine ⟨?_, by decide⟩
  intro r hinv hlt hne
  have hw := well_formed_of_invariant r hinv hlt
  have hpos : (r.byte_size - sizeof_NodeRefList) / sizeof_NodeRef ≠ 0 := by
    intro h0
    rw [empty_of_well_formed r _ hw, h0] at hne
    cases hne
  obtain ⟨M, hM⟩ : ∃ M, (r.byte_size - sizeof_NodeRefList) / sizeof_NodeRef = M + 1 :=
    ⟨_, (Nat.succ_pred_eq_of_ne_zero hpos).symm⟩
  rw [hM] at hw
  refine ⟨M + 1, Nat.succ_pos M, size_of_well_formed r _ hw, ?_, ?_, ?_, ?_, ?_⟩
  · rw [pred_size_t M (count_lt_size_t r (M + 1) hw), Nat.add_sub_cancel]
  · exact front_of_well_formed r M hw
  · rw [front_of_well_formed r M hw, operator_index_of_lt r (M + 1) 0 hw (Nat.succ_pos M)]
  · rw [Nat.add_sub_cancel]
    exact back_of_well_formed r M hw
  · rw [Nat.add_sub_cancel, back_of_well_formed r M hw,
      operator_index_of_lt r (M + 1) M hw (Nat.lt_succ_self M)]

theorem not_empty_gives_an_element_witness :
    ∃ count, 1 ≤ count ∧ (of_ids [8, 9]).size = .ok count ∧
      (count + size_t_range - 1) % size_t_range = count - 1 ∧
      (of_ids [8, 9]).front = .ok ((of_ids [8, 9]).stored 0) ∧
      (of_ids [8, 9]).front = (of_ids [8, 9]).operator_index 0 ∧
      (of_ids [8, 9]).back = .ok ((of_ids [8, 9]).stored (count - 1)) ∧
      (of_ids [8, 9]).back = (of_ids [8, 9]).operator_index (count - 1) :=
  not_empty_gives_an_element.1 (of_ids [8, 9]) (by decide) (by decide) (by decide)

/-- C17: on a well-formed view with exactly one element `front()` and `back()`
return the same element, `is_closed()` and `ends_have_same_id()` return true,
and `ends_have_same_location()` returns true when that element has a
location. -/
theorem single_element_is_closed (r : NodeRefList) (h : r.well_formed 1) :
    r.front = .ok (r.stored 0) ∧ r.back = .ok (r.stored 0) ∧ r.front = r.back ∧
      r.is_closed = .ok true ∧ r.ends_have_same_id = .ok true ∧
      ((r.stored 0).location.valid = true → r.ends_have_same_location = .ok true) := by
  have hf := front_of_well_formed r 0 h
  have hb := back_of_well_formed r 0 h
  have hid := ends_have_same_id_of_well_formed r 0 h
  rw [decide_eq_true rfl] at hid
  refine ⟨hf, hb, hf.trans hb.symm, hid, hid, ?_⟩
  intro hv
  rw [ends_have_same_location_of_well_formed r 0 h hv hv, decide_eq_true rfl]

theorem single_element_is_closed_witness :
    (of_ids [42]).front = .ok ((of_ids [42]).stored 0) ∧
      (of_ids [42]).back = .ok ((of_ids [42]).stored 0) ∧
      (of_ids [42]).front = (of_ids [42]).back ∧
      (of_ids [42]).is_closed = .ok true ∧ (of_ids [42]).ends_have_same_id = .ok true ∧
      (((of_ids [42]).stored 0).location.valid = true →
        (of_ids [42]).ends_have_same_location = .ok true) :=
  single_element_is_closed (of_ids [42]) (by decide)

end osmium

/-! ## The default scale -/

/-- C18: a default-constructed `output_options` has `scale` equal to
`DEFAULT_SCALE`, which is 100, whatever the storage it is constructed on, and
this scale satisfies the bound of the comment, `40,000 * scale < 2^32`. -/
theorem default_scale_within_bound :
    (∀ raw : output_options, (output_options.construct raw).scale = DEFAULT_SCALE) ∧
      DEFAULT_SCALE = 100 ∧
      (∀ raw : output_options, 40000 * (output_options.construct raw).scale < 2 ^ 32) :=
  ⟨fun _ => rfl, rfl, fun _ => show (40000 : Int) * DEFAULT_SCALE < 2 ^ 32 by decide⟩
